import Mathlib

/-!
Verification of `script/gen_gallery.py`, the SfePy gallery generator.

The script is embedded shallowly: Python strings become `List Char`, the
`os.path` helpers the script calls (`splitext`, `join`, `basename`,
`dirname`) are translated from CPython's `posixpath` implementation,
`str.replace` / `str.count` are translated from their documented
non-overlapping left-to-right semantics, and the external collaborators
(solver, viewer, file discovery) are parameters or event records.
-/

set_option maxRecDepth 4000

namespace GenGallery

/-- Python strings, modelled as lists of characters. -/
abbrev Str := List Char

/-- Value of `os.path.sep` on the posix platform the script targets. -/
def pathSep : Char := '/'

/-- Python `str.rfind` for a single character: index of the last
occurrence, `-1` if absent. -/
def rfindIdx : Str → Char → Int
  | [], _ => -1
  | a :: rest, c =>
    let r := rfindIdx rest c
    if 0 ≤ r then r + 1 else if a = c then 0 else -1

/-- The scan inside CPython `posixpath.splitext`: is there an index `i`
with `lo ≤ i < hi` such that `s[i]` is not a dot? -/
def existsNonDot (s : Str) (lo hi : Int) : Bool :=
  (List.range s.length).any fun i =>
    decide (lo ≤ (i : Int)) && decide ((i : Int) < hi) && decide (s.getD i '.' ≠ '.')

/-- The root part of CPython `posixpath.splitext`: everything before the
extension (the part from the last dot of the basename on), where leading
dots of the basename never start an extension. -/
def splitextRoot (p : Str) : Str :=
  let sepIdx := rfindIdx p pathSep
  let dotIdx := rfindIdx p '.'
  if sepIdx < dotIdx ∧ existsNonDot p (sepIdx + 1) dotIdx = true then
    p.take dotIdx.toNat
  else p

/-- The character map realising `str.replace(os.path.sep, '-')`. -/
def repSep (c : Char) : Char := if c = pathSep then '-' else c

/-- Computation of `fig_base` in `_get_fig_filename` (line 20): extension stripped,
separators flattened to `'-'`. -/
def getFigBase (ebase : Str) : Str := (splitextRoot ebase).map repSep

/-- CPython `posixpath.join` for two components. -/
def osJoin (a b : Str) : Str :=
  if b.head? = some pathSep then b
  else if a = [] then b
  else if a.getLast? = some pathSep then a ++ b
  else a ++ pathSep :: b

/-- Translation of `_get_fig_filename(ebase, images_dir)` (lines 19-23). -/
def getFigFilename (ebase imagesDir : Str) : Str × Str :=
  let figBase := getFigBase ebase
  (figBase, osJoin imagesDir (figBase ++ (".png").toList))

/-- Is `pat` an initial segment of `s`? -/
def isPrefOf : Str → Str → Bool
  | [], _ => true
  | _ :: _, [] => false
  | a :: ps, b :: ss => (a == b) && isPrefOf ps ss

/-- Fuel-driven worker for `replaceAll`; the fuel is an upper bound on the
input length, so with `fuel = s.length` every character is examined. -/
def replaceAllAux (pat rep : Str) : Nat → Str → Str
  | 0, s => s
  | fuel + 1, s =>
    match s with
    | [] => []
    | c :: rest =>
      if isPrefOf pat (c :: rest) then
        rep ++ replaceAllAux pat rep fuel (List.drop pat.length (c :: rest))
      else c :: replaceAllAux pat rep fuel rest

/-- Python `str.replace(pat, rep)`: all non-overlapping occurrences,
scanned left to right; an empty pattern splices `rep` around every
character. -/
def replaceAll (s pat rep : Str) : Str :=
  if pat = [] then rep ++ s.foldr (fun c acc => c :: (rep ++ acc)) []
  else replaceAllAux pat rep s.length s

/-- Fuel-driven worker for `countOccs`. -/
def countOccsAux (pat : Str) : Nat → Str → Nat
  | 0, _ => 0
  | fuel + 1, s =>
    match s with
    | [] => 0
    | c :: rest =>
      if isPrefOf pat (c :: rest) then
        countOccsAux pat fuel (List.drop pat.length (c :: rest)) + 1
      else countOccsAux pat fuel rest

/-- Python `str.count(pat)`: non-overlapping occurrences. -/
def countOccs (s pat : Str) : Nat :=
  if pat = [] then s.length + 1 else countOccsAux pat s.length s

/-- CPython `posixpath.basename`. -/
def basenameOf (p : Str) : Str := p.drop (rfindIdx p pathSep + 1).toNat

/-- Python `str.rstrip(os.path.sep)`. -/
def rstripSep (s : Str) : Str := (s.reverse.dropWhile fun c => c = pathSep).reverse

/-- CPython `posixpath.dirname`. -/
def dirnameOf (p : Str) : Str :=
  let head := p.take (rfindIdx p pathSep + 1).toNat
  if head ≠ [] ∧ head ≠ List.replicate head.length pathSep then rstripSep head
  else head

/-- Translation of `_make_sphinx_path(path, relative)` (lines 25-34); `dataDir` stands for
`sfepy.data_dir`. -/
def makeSphinxPath (dataDir path : Str) (relative : Bool) : Str :=
  if relative then
    let aux := replaceAll path dataDir []
    let pre := (List.replicate (countOccs aux [pathSep]) ("../").toList).flatten
    pre.dropLast ++ aux
  else replaceAll path dataDir ("/..").toList

/-- Computation `ebase = ex_filename.replace(examples_dir, '')[1:]` (lines 71, 191). -/
def ebaseOf (exFilename examplesDir : Str) : Str :=
  (replaceAll exFilename examplesDir []).drop 1

/-- The fixed exclusion list `omits` (lines 15-17). -/
def omits : List Str := [("linear_elastic_mM.py").toList]

/-- The problem object returned by a successful `pde_solve`, reduced to
the two fields `generate_images` consults: whether `ts_conf` is set, and
the value `get_output_name(suffix=...)` returns in the time-stepping
case. -/
structure Problem where
  hasTsConf : Bool
  tsOutputName : Str
deriving DecidableEq

/-- Outcome of the external `pde_solve` on one example. -/
inductive SolveOutcome where
  | success (p : Problem)
  | failure
  | interrupt
deriving DecidableEq

/-- The `offscreen` flag the `Viewer` is constructed with (line 63). -/
def viewOffscreen : Bool := false

/-- One invocation of the viewer,
`view(scene=view.scene, show=False, is_scalar_bar=True, fig_filename=...)`
(lines 98-100), together with the construction-time `offscreen` flag of
the viewer object performing it. -/
structure RenderCall where
  filename : Str
  showFlag : Bool
  isScalarBar : Bool
  offscreen : Bool
  figFilename : Str
deriving DecidableEq

/-- Computation `trunk = os.path.join(output_dir, 'result')` (line 50). -/
def trunkOf (outputDir : Str) : Str := osJoin outputDir ("result").toList

/-- The result file chosen at lines 87-92: the fixed single-step name when
`problem.ts_conf is None`, else the time-suffixed output name. -/
def resultFileOf (outputDir : Str) (p : Problem) : Str :=
  if p.hasTsConf = false then trunkOf outputDir ++ (".vtk").toList
  else p.tsOutputName

/-- The render call `generate_images` makes for example `ex` once `pde_solve`
returned problem `p` (lines 85-100). -/
def renderCallFor (outputDir imagesDir examplesDir ex : Str) (p : Problem) : RenderCall :=
  { filename := resultFileOf outputDir p
    showFlag := false
    isScalarBar := true
    offscreen := viewOffscreen
    figFilename := (getFigFilename (ebaseOf ex examplesDir) imagesDir).2 }

/-- Observable actions of `generate_images`, in program order. -/
inductive Event where
  | trying (ebase : Str)
  | failed
  | render (rc : RenderCall)
  | cleanupScratch
  | doneEx
deriving DecidableEq

/-- The loop of `generate_images` (lines 65-107) over the discovered example
files, with `pde_solve` abstracted by the oracle `solve`: returns the event
trace and whether a `KeyboardInterrupt` aborted the batch.  A failing solve
is caught (`problem = None`), reported and skipped; `remove_files(output_dir)`
(the `cleanupScratch` event) sits inside the success branch. -/
def generateImages (solve : Str → SolveOutcome) (outputDir imagesDir examplesDir : Str) :
    List Str → List Event × Bool
  | [] => ([], false)
  | ex :: rest =>
    if basenameOf ex ∈ omits then generateImages solve outputDir imagesDir examplesDir rest
    else
      match solve ex with
      | SolveOutcome.interrupt => ([Event.trying (ebaseOf ex examplesDir)], true)
      | SolveOutcome.failure =>
        let r := generateImages solve outputDir imagesDir examplesDir rest
        (Event.trying (ebaseOf ex examplesDir) :: Event.failed :: Event.doneEx :: r.1, r.2)
      | SolveOutcome.success p =>
        let r := generateImages solve outputDir imagesDir examplesDir rest
        (Event.trying (ebaseOf ex examplesDir)
          :: Event.render (renderCallFor outputDir imagesDir examplesDir ex p)
          :: Event.cleanupScratch :: Event.doneEx :: r.1, r.2)

/-- The render calls made during a `generate_images` run. -/
def rendersOf (solve : Str → SolveOutcome) (outputDir imagesDir examplesDir : Str)
    (files : List Str) : List RenderCall :=
  (generateImages solve outputDir imagesDir examplesDir files).1.filterMap fun e =>
    match e with
    | Event.render rc => some rc
    | _ => none

/-- The `_index` template (lines 129-138) applied to its three slots. -/
def indexTemplate (a b c : Str) : Str :=
  (".. _").toList ++ a ++ ("-index:\n\n").toList ++ b ++ (" examples\n").toList
    ++ c ++ ("=========\n\n.. toctree::\n    :maxdepth: 2\n\n").toList

/-- The `_include` template (lines 140-152) applied to its six slots. -/
def includeTemplate (anchor title underline img dl lit : Str) : Str :=
  (".. _").toList ++ anchor ++ (":\n\n").toList ++ title ++ ("\n").toList
    ++ underline ++ ("\n\n.. image:: ").toList ++ img
    ++ ("\n\n:download:`source code <").toList ++ dl
    ++ (">`\n\n.. literalinclude:: ").toList ++ lit ++ ("\n\n").toList

/-- Computation `rst_filename = os.path.basename(ex_filename).replace('.py', '.rst')`
(line 171). -/
def rstFilenameOf (exFilename : Str) : Str :=
  replaceAll (basenameOf exFilename) (".py").toList (".rst").toList

/-- Computation `rst_filename_ns = rst_filename.replace('.rst', '')` (line 190). -/
def rstFilenameNs (rstFilename : Str) : Str :=
  replaceAll rstFilename (".rst").toList []

/-- One directory group: the relative directory and its
`(ex_filename, rst_filename)` pairs in discovery order. -/
abbrev DirGroup := Str × List (Str × Str)

/-- Operation `dir_map.setdefault(base_dir, []).append(...)` (line 173) on an
association list kept in first-insertion order. -/
def addToDirMap : List DirGroup → Str → Str × Str → List DirGroup
  | [], k, v => [(k, [v])]
  | (k0, vs) :: rest, k, v =>
    if k0 = k then (k0, vs ++ [v]) :: rest else (k0, vs) :: addToDirMap rest k v

/-- The grouping key of an example: `os.path.dirname(ebase)` (lines 168-169). -/
def dirKeyOf (examplesDir ex : Str) : Str := dirnameOf (ebaseOf ex examplesDir)

/-- The discovery loop of `generate_rst_files` (lines 163-173), generalised
over the accumulated map. -/
def dirMapFold (examplesDir : Str) : List DirGroup → List Str → List DirGroup
  | m, [] => m
  | m, ex :: rest =>
    if basenameOf ex ∈ omits then dirMapFold examplesDir m rest
    else dirMapFold examplesDir
      (addToDirMap m (dirKeyOf examplesDir ex) (ex, rstFilenameOf ex)) rest

/-- The map `dir_map` as built at lines 163-173. -/
def dirMapOf (examplesDir : Str) (files : List Str) : List DirGroup :=
  dirMapFold examplesDir [] files

/-- Groups ordered by key: `a.1 ≤ b.1`, lexicographic on characters. -/
def dirGroupLe (a b : DirGroup) : Prop := a.1 ≤ b.1

instance : DecidableRel dirGroupLe := fun a b => inferInstanceAs (Decidable (a.1 ≤ b.1))

instance : IsTotal DirGroup dirGroupLe := ⟨fun a b => le_total a.1 b.1⟩

instance : IsTrans DirGroup dirGroupLe := ⟨fun _ _ _ h1 h2 => le_trans h1 h2⟩

/-- Modelled from the spec: `ordered_iteritems` (imported from
`sfepy.base.base`, whose source is not part of this repository) iterates a
dict's items sorted by key — "Grouping key ordering must be
stable/deterministic across runs (sorted by key)". -/
def orderedItems (m : List DirGroup) : List DirGroup := List.insertionSort dirGroupLe m

/-- The `(fig_base, fig_filename)` pair computed in `generate_rst_files`
(line 193). -/
def rstFigPair (examplesDir imagesDir ex : Str) : Str × Str :=
  getFigFilename (ebaseOf ex examplesDir) imagesDir

/-- The content page written for one example (lines 190-206). -/
def contentPageFor (dataDir examplesDir imagesDir ex : Str) : Str :=
  let eb := ebaseOf ex examplesDir
  let fp := rstFigPair examplesDir imagesDir ex
  includeTemplate fp.1 eb (List.replicate eb.length '=')
    (makeSphinxPath dataDir fp.2 false)
    (makeSphinxPath dataDir ex true)
    (makeSphinxPath dataDir ex false)

/-- One whole-file write (`open(path, 'w')` ... `close`). -/
structure WriteOp where
  path : Str
  content : Str
deriving DecidableEq

/-- Subdirectory index content for group `(dirname, filenames)` (lines
184-195): header plus one `    <name>\n` entry per member example. -/
def subdirIndexContent (g : DirGroup) : Str :=
  indexTemplate g.1 g.1 (List.replicate g.1.length '=')
    ++ (g.2.map fun p => ("    ").toList ++ rstFilenameNs p.2 ++ ("\n").toList).flatten

/-- Top-level index content (lines 176-212): header plus one
`    <dirname>/index\n` entry per directory group in `ordered_iteritems`
order. -/
def mainIndexContent (examplesDir : Str) (files : List Str) : Str :=
  indexTemplate ("sfepy").toList ("SfePy autogenerated gallery").toList
      (List.replicate 27 '=')
    ++ ((orderedItems (dirMapOf examplesDir files)).map fun g =>
        ("    ").toList ++ g.1 ++ ("/index\n").toList).flatten

/-- The writes performed for one directory group, in close order: member
content pages (discovery order) then the subdirectory index. -/
def groupWrites (dataDir rstDir examplesDir imagesDir : Str) (g : DirGroup) : List WriteOp :=
  (g.2.map fun p =>
    { path := osJoin (osJoin rstDir g.1) p.2
      content := contentPageFor dataDir examplesDir imagesDir p.1 })
  ++ [{ path := osJoin (osJoin rstDir g.1) ("index.rst").toList
        content := subdirIndexContent g }]

/-- Translation of `generate_rst_files` (lines 154-214) as the list of whole-file writes it
performs, ordered by close time (each `open(..., 'w')`/`close` pair is one
`WriteOp`; the main index handle closes last). -/
def generateRstFiles (dataDir rstDir examplesDir imagesDir : Str) (files : List Str) :
    List WriteOp :=
  ((orderedItems (dirMapOf examplesDir files)).map
      (groupWrites dataDir rstDir examplesDir imagesDir)).flatten
    ++ [{ path := osJoin rstDir ("index.rst").toList
          content := mainIndexContent examplesDir files }]

/-- Apply one whole-file write to a filesystem state. -/
def applyWrite (fs : Str → Option Str) (w : WriteOp) : Str → Option Str :=
  fun p => if p = w.path then some w.content else fs p

/-- Apply a run's writes in order. -/
def applyWrites (ws : List WriteOp) (fs : Str → Option Str) : Str → Option Str :=
  ws.foldl applyWrite fs

/-- The three pipeline stages `main` can invoke, with their arguments. -/
inductive StageCall where
  | images (imagesDir examplesDir : Str)
  | thumbnails (thumbnailsDir imagesDir : Str)
  | rstFiles (rstDir examplesDir imagesDir : Str)
deriving DecidableEq

/-- The parsed command-line options (lines 232-246). -/
structure CmdOptions where
  examplesDir : Str
  imagesDirOpt : Option Str
  noImages : Bool
  outputFilename : Str

/-- Modelled from the spec: `get_default` (imported from `sfepy.base.base`,
whose source is not part of this repository) returns its first argument
unless that is `None`, in which case it returns the default — used for the
images directory option, whose default is `images` under the output dir. -/
def getDefault (a : Option Str) (d : Str) : Str := a.getD d

/-- Computation `gallery_dir = os.path.dirname(os.path.realpath(options.output_filename))`
(line 249). -/
def galleryDirOf (realpath : Str → Str) (opts : CmdOptions) : Str :=
  dirnameOf (realpath opts.outputFilename)

/-- Computation `images_dir = get_default(options.images_dir, os.path.join(gallery_dir,
'images'))` (lines 251-252). -/
def imagesDirOf (realpath : Str → Str) (opts : CmdOptions) : Str :=
  getDefault opts.imagesDirOpt (osJoin (galleryDirOf realpath opts) ("images").toList)

/-- Computation `thumbnails_dir = os.path.join(images_dir, 'thumbnails')` (line 254). -/
def thumbnailsDirOf (realpath : Str → Str) (opts : CmdOptions) : Str :=
  osJoin (imagesDirOf realpath opts) ("thumbnails").toList

/-- Computation `rst_dir = os.path.join(gallery_dir, 'examples')` (line 255). -/
def rstDirOf (realpath : Str → Str) (opts : CmdOptions) : Str :=
  osJoin (galleryDirOf realpath opts) ("examples").toList

/-- The stage invocations of `main` (lines 248-261), with `os.path.realpath`
abstracted as a parameter. -/
def mainStages (realpath : Str → Str) (opts : CmdOptions) : List StageCall :=
  (if opts.noImages = false then
      [StageCall.images (imagesDirOf realpath opts) (realpath opts.examplesDir),
       StageCall.thumbnails (thumbnailsDirOf realpath opts) (imagesDirOf realpath opts)]
    else [])
    ++ [StageCall.rstFiles (rstDirOf realpath opts) (realpath opts.examplesDir)
          (imagesDirOf realpath opts)]

/-! ### Unfolding lemmas for the `generate_images` loop -/

lemma generateImages_cons_omit (solve : Str → SolveOutcome)
    (outputDir imagesDir examplesDir ex : Str) (rest : List Str)
    (h : basenameOf ex ∈ omits) :
    generateImages solve outputDir imagesDir examplesDir (ex :: rest)
      = generateImages solve outputDir imagesDir examplesDir rest := by
  simp [generateImages, h]

lemma generateImages_cons_fail (solve : Str → SolveOutcome)
    (outputDir imagesDir examplesDir ex : Str) (rest : List Str)
    (hnot : basenameOf ex ∉ omits) (h : solve ex = SolveOutcome.failure) :
    generateImages solve outputDir imagesDir examplesDir (ex :: rest)
      = (Event.trying (ebaseOf ex examplesDir) :: Event.failed :: Event.doneEx ::
          (generateImages solve outputDir imagesDir examplesDir rest).1,
         (generateImages solve outputDir imagesDir examplesDir rest).2) := by
  simp [generateImages, hnot, h]

lemma generateImages_cons_ok (solve : Str → SolveOutcome)
    (outputDir imagesDir examplesDir ex : Str) (rest : List Str) (p : Problem)
    (hnot : basenameOf ex ∉ omits) (h : solve ex = SolveOutcome.success p) :
    generateImages solve outputDir imagesDir examplesDir (ex :: rest)
      = (Event.trying (ebaseOf ex examplesDir)
          :: Event.render (renderCallFor outputDir imagesDir examplesDir ex p)
          :: Event.cleanupScratch :: Event.doneEx ::
          (generateImages solve outputDir imagesDir examplesDir rest).1,
         (generateImages solve outputDir imagesDir examplesDir rest).2) := by
  simp [generateImages, hnot, h]

lemma generateImages_cons_int (solve : Str → SolveOutcome)
    (outputDir imagesDir examplesDir ex : Str) (rest : List Str)
    (hnot : basenameOf ex ∉ omits) (h : solve ex = SolveOutcome.interrupt) :
    generateImages solve outputDir imagesDir examplesDir (ex :: rest)
      = ([Event.trying (ebaseOf ex examplesDir)], true) := by
  simp [generateImages, hnot, h]

lemma rendersOf_cons_omit (solve : Str → SolveOutcome)
    (outputDir imagesDir examplesDir ex : Str) (rest : List Str)
    (h : basenameOf ex ∈ omits) :
    rendersOf solve outputDir imagesDir examplesDir (ex :: rest)
      = rendersOf solve outputDir imagesDir examplesDir rest := by
  simp [rendersOf, generateImages_cons_omit solve outputDir imagesDir examplesDir ex rest h]

lemma rendersOf_cons_fail (solve : Str → SolveOutcome)
    (outputDir imagesDir examplesDir ex : Str) (rest : List Str)
    (hnot : basenameOf ex ∉ omits) (h : solve ex = SolveOutcome.failure) :
    rendersOf solve outputDir imagesDir examplesDir (ex :: rest)
      = rendersOf solve outputDir imagesDir examplesDir rest := by
  simp [rendersOf,
    generateImages_cons_fail solve outputDir imagesDir examplesDir ex rest hnot h]

lemma rendersOf_cons_ok (solve : Str → SolveOutcome)
    (outputDir imagesDir examplesDir ex : Str) (rest : List Str) (p : Problem)
    (hnot : basenameOf ex ∉ omits) (h : solve ex = SolveOutcome.success p) :
    rendersOf solve outputDir imagesDir examplesDir (ex :: rest)
      = renderCallFor outputDir imagesDir examplesDir ex p
          :: rendersOf solve outputDir imagesDir examplesDir rest := by
  simp [rendersOf,
    generateImages_cons_ok solve outputDir imagesDir examplesDir ex rest p hnot h]

lemma rendersOf_cons_int (solve : Str → SolveOutcome)
    (outputDir imagesDir examplesDir ex : Str) (rest : List Str)
    (hnot : basenameOf ex ∉ omits) (h : solve ex = SolveOutcome.interrupt) :
    rendersOf solve outputDir imagesDir examplesDir (ex :: rest) = [] := by
  simp [rendersOf,
    generateImages_cons_int solve outputDir imagesDir examplesDir ex rest hnot h]

/-! ### Concrete data used by witnesses and counterexamples -/

def wOut : Str := ("/tmp/t").toList

def wImgs : Str := ("/sf/doc/images").toList

def wExDir : Str := ("/sf/examples").toList

def wData : Str := ("/sf").toList

def wRst : Str := ("/sf/doc/examples").toList

def exGood : Str := ("/sf/examples/a/ex1.py").toList

def exBad : Str := ("/sf/examples/a/bad.py").toList

def exOmitDeep : Str := ("/sf/examples/deep/nested/linear_elastic_mM.py").toList

def solveAllOk : Str → SolveOutcome := fun _ => SolveOutcome.success ⟨false, []⟩

def solveAllFail : Str → SolveOutcome := fun _ => SolveOutcome.failure

def solveBadFails : Str → SolveOutcome := fun ex =>
  if ex = exBad then SolveOutcome.failure
  else if ex = exGood then SolveOutcome.success ⟨false, []⟩
  else SolveOutcome.interrupt

/-! ### C1 -/

/-- C1: for every example, the image path `generate_images` renders to
(line 85) equals the image path `generate_rst_files` derives for that
example's content page (line 193) — both are `_get_fig_filename` applied to
the example's `ebase` and `images_dir` — and the content page's image
directive carries exactly the sphinx rewrite of that common path. -/
theorem figPathPipelineAgreement (dataDir outputDir imagesDir examplesDir ex : Str)
    (p : Problem) :
    (renderCallFor outputDir imagesDir examplesDir ex p).figFilename
        = (rstFigPair examplesDir imagesDir ex).2
      ∧ (rstFigPair examplesDir imagesDir ex).2
        = (getFigFilename (ebaseOf ex examplesDir) imagesDir).2
      ∧ contentPageFor dataDir examplesDir imagesDir ex
        = includeTemplate (rstFigPair examplesDir imagesDir ex).1
            (ebaseOf ex examplesDir)
            (List.replicate (ebaseOf ex examplesDir).length '=')
            (makeSphinxPath dataDir
              (renderCallFor outputDir imagesDir examplesDir ex p).figFilename false)
            (makeSphinxPath dataDir ex true)
            (makeSphinxPath dataDir ex false) :=
  ⟨rfl, rfl, rfl⟩

/-! ### C2 -/

/-- C2: in `generate_images`, a solve failure other than `KeyboardInterrupt`
is caught: the failure is reported, no render happens for that example
(the render-call list is unchanged), and the loop proceeds to the remaining
examples; a `KeyboardInterrupt` during the solve aborts the whole batch
immediately, processing nothing further. -/
theorem solveFailureIsolation (solve : Str → SolveOutcome)
    (outputDir imagesDir examplesDir ex : Str) (rest : List Str)
    (hnot : basenameOf ex ∉ omits) :
    (solve ex = SolveOutcome.failure →
      generateImages solve outputDir imagesDir examplesDir (ex :: rest)
          = (Event.trying (ebaseOf ex examplesDir) :: Event.failed :: Event.doneEx ::
              (generateImages solve outputDir imagesDir examplesDir rest).1,
             (generateImages solve outputDir imagesDir examplesDir rest).2)
        ∧ rendersOf solve outputDir imagesDir examplesDir (ex :: rest)
          = rendersOf solve outputDir imagesDir examplesDir rest)
    ∧ (solve ex = SolveOutcome.interrupt →
      generateImages solve outputDir imagesDir examplesDir (ex :: rest)
        = ([Event.trying (ebaseOf ex examplesDir)], true)) := by
  refine ⟨fun h => ⟨?_, ?_⟩, fun h => ?_⟩
  · exact generateImages_cons_fail solve outputDir imagesDir examplesDir ex rest hnot h
  · exact rendersOf_cons_fail solve outputDir imagesDir examplesDir ex rest hnot h
  · exact generateImages_cons_int solve outputDir imagesDir examplesDir ex rest hnot h

/-- Witness for C2 at a concrete failing example followed by a surviving
one. -/
theorem solveFailureIsolation_witness :
    basenameOf exBad ∉ omits ∧
    ((solveBadFails exBad = SolveOutcome.failure →
      generateImages solveBadFails wOut wImgs wExDir (exBad :: [exGood])
          = (Event.trying (ebaseOf exBad wExDir) :: Event.failed :: Event.doneEx ::
              (generateImages solveBadFails wOut wImgs wExDir [exGood]).1,
             (generateImages solveBadFails wOut wImgs wExDir [exGood]).2)
        ∧ rendersOf solveBadFails wOut wImgs wExDir (exBad :: [exGood])
          = rendersOf solveBadFails wOut wImgs wExDir [exGood])
    ∧ (solveBadFails exBad = SolveOutcome.interrupt →
      generateImages solveBadFails wOut wImgs wExDir (exBad :: [exGood])
        = ([Event.trying (ebaseOf exBad wExDir)], true))) :=
  ⟨by decide,
   solveFailureIsolation solveBadFails wOut wImgs wExDir exBad [exGood] (by decide)⟩

/-! ### C5 -/

/-- C5: the content page for an example consists exactly of: an anchor
derived from the flattened image base name, a title equal to the example's
relative path (with its underline), an image directive whose target is the
absolute-style sphinx image path, a download link whose target is the
relative-style source path, and a literalinclude directive whose target is
the absolute-style source path. -/
theorem contentPageStructure (dataDir examplesDir imagesDir ex : Str) :
    contentPageFor dataDir examplesDir imagesDir ex
      = (".. _").toList ++ (getFigFilename (ebaseOf ex examplesDir) imagesDir).1
          ++ (":\n\n").toList
        ++ ebaseOf ex examplesDir ++ ("\n").toList
        ++ List.replicate (ebaseOf ex examplesDir).length '='
        ++ ("\n\n.. image:: ").toList
        ++ makeSphinxPath dataDir (getFigFilename (ebaseOf ex examplesDir) imagesDir).2 false
        ++ ("\n\n:download:`source code <").toList
        ++ makeSphinxPath dataDir ex true
        ++ (">`\n\n.. literalinclude:: ").toList
        ++ makeSphinxPath dataDir ex false
        ++ ("\n\n").toList := by
  simp [contentPageFor, includeTemplate, rstFigPair, List.append_assoc]

/-! ### C7 -/

/-- C7 counterexample: when the solve of an example fails, no scratch
cleanup (`remove_files(output_dir)`) happens at all before the loop moves
on — the cleanup sits inside the success branch (line 105). -/
theorem scratchNotCleanedOnFailureCex :
    Event.cleanupScratch ∉ (generateImages solveAllFail wOut wImgs wExDir [exBad]).1
      ∧ (generateImages solveAllFail wOut wImgs wExDir [exBad]).1
        = [Event.trying (ebaseOf exBad wExDir), Event.failed, Event.doneEx] := by
  constructor
  · decide
  · decide

/-- C7 (amended): the scratch cleanup runs only in the success branch —
after a successful solve and render, before moving on; an iteration whose
solve fails performs no cleanup at all. -/
theorem scratchCleanupOnlyOnSuccess (solve : Str → SolveOutcome)
    (outputDir imagesDir examplesDir ex : Str) (rest : List Str)
    (hnot : basenameOf ex ∉ omits) :
    (∀ p, solve ex = SolveOutcome.success p →
      (generateImages solve outputDir imagesDir examplesDir (ex :: rest)).1
        = Event.trying (ebaseOf ex examplesDir)
            :: Event.render (renderCallFor outputDir imagesDir examplesDir ex p)
            :: Event.cleanupScratch :: Event.doneEx
            :: (generateImages solve outputDir imagesDir examplesDir rest).1)
    ∧ (solve ex = SolveOutcome.failure →
      (generateImages solve outputDir imagesDir examplesDir (ex :: rest)).1
        = Event.trying (ebaseOf ex examplesDir) :: Event.failed :: Event.doneEx
            :: (generateImages solve outputDir imagesDir examplesDir rest).1
        ∧ Event.cleanupScratch
          ∉ [Event.trying (ebaseOf ex examplesDir), Event.failed, Event.doneEx]) := by
  constructor
  · intro p h
    rw [generateImages_cons_ok solve outputDir imagesDir examplesDir ex rest p hnot h]
  · intro h
    constructor
    · rw [generateImages_cons_fail solve outputDir imagesDir examplesDir ex rest hnot h]
    · simp

/-- Witness for C7 (amended) at a concrete succeeding example. -/
theorem scratchCleanupOnlyOnSuccess_witness :
    basenameOf exGood ∉ omits ∧
    ((∀ p, solveAllOk exGood = SolveOutcome.success p →
      (generateImages solveAllOk wOut wImgs wExDir (exGood :: [])).1
        = Event.trying (ebaseOf exGood wExDir)
            :: Event.render (renderCallFor wOut wImgs wExDir exGood p)
            :: Event.cleanupScratch :: Event.doneEx
            :: (generateImages solveAllOk wOut wImgs wExDir []).1)
    ∧ (solveAllOk exGood = SolveOutcome.failure →
      (generateImages solveAllOk wOut wImgs wExDir (exGood :: [])).1
        = Event.trying (ebaseOf exGood wExDir) :: Event.failed :: Event.doneEx
            :: (generateImages solveAllOk wOut wImgs wExDir []).1
        ∧ Event.cleanupScratch
          ∉ [Event.trying (ebaseOf exGood wExDir), Event.failed, Event.doneEx])) :=
  ⟨by decide, scratchCleanupOnlyOnSuccess solveAllOk wOut wImgs wExDir exGood [] (by decide)⟩

/-! ### C9 -/

/-- C9 counterexample: at a concrete corpus a render is invoked, but the
viewer it goes through was constructed with `offscreen=False` (line 63) —
the render is not offscreen. -/
theorem renderNotOffscreenCex :
    (rendersOf solveAllOk wOut wImgs wExDir [exGood]).map RenderCall.offscreen = [false]
      ∧ viewOffscreen = false := by
  constructor
  · decide
  · rfl

/-- C9 (amended): every render call `generate_images` makes has the
scalar-bar annotation enabled and interactive display disabled, and writes
to the image path computed by `_get_fig_filename`; however the viewer the
calls go through is constructed with `offscreen=False`, i.e. not
offscreen. -/
theorem renderCallConfiguration (solve : Str → SolveOutcome)
    (outputDir imagesDir examplesDir : Str) (files : List Str) :
    ∀ rc ∈ rendersOf solve outputDir imagesDir examplesDir files,
      rc.isScalarBar = true ∧ rc.showFlag = false ∧ rc.offscreen = false
        ∧ ∃ ex ∈ files, ∃ p : Problem, solve ex = SolveOutcome.success p
            ∧ rc = renderCallFor outputDir imagesDir examplesDir ex p
            ∧ rc.figFilename = (getFigFilename (ebaseOf ex examplesDir) imagesDir).2 := by
  induction files with
  | nil => intro rc hrc; simp [rendersOf, generateImages] at hrc
  | cons ex rest ih =>
    intro rc hrc
    by_cases hom : basenameOf ex ∈ omits
    · rw [rendersOf_cons_omit solve outputDir imagesDir examplesDir ex rest hom] at hrc
      obtain ⟨h1, h2, h3, ex0, hex0, hrest⟩ := ih rc hrc
      exact ⟨h1, h2, h3, ex0, List.mem_cons_of_mem ex hex0, hrest⟩
    · cases hs : solve ex with
      | interrupt =>
        rw [rendersOf_cons_int solve outputDir imagesDir examplesDir ex rest hom hs] at hrc
        simp at hrc
      | failure =>
        rw [rendersOf_cons_fail solve outputDir imagesDir examplesDir ex rest hom hs] at hrc
        obtain ⟨h1, h2, h3, ex0, hex0, hrest⟩ := ih rc hrc
        exact ⟨h1, h2, h3, ex0, List.mem_cons_of_mem ex hex0, hrest⟩
      | success p =>
        rw [rendersOf_cons_ok solve outputDir imagesDir examplesDir ex rest p hom hs] at hrc
        rcases List.mem_cons.mp hrc with heq | hmem
        · subst heq
          exact ⟨rfl, rfl, rfl, ex, List.mem_cons_self ex rest,
            p, hs, rfl, rfl⟩
        · obtain ⟨h1, h2, h3, ex0, hex0, hrest⟩ := ih rc hmem
          exact ⟨h1, h2, h3, ex0, List.mem_cons_of_mem ex hex0, hrest⟩

/-- Witness for C9 (amended) at a concrete render call. -/
theorem renderCallConfiguration_witness :
    renderCallFor wOut wImgs wExDir exGood ⟨false, []⟩
        ∈ rendersOf solveAllOk wOut wImgs wExDir [exGood]
      ∧ ((renderCallFor wOut wImgs wExDir exGood ⟨false, []⟩).isScalarBar = true
        ∧ (renderCallFor wOut wImgs wExDir exGood ⟨false, []⟩).showFlag = false
        ∧ (renderCallFor wOut wImgs wExDir exGood ⟨false, []⟩).offscreen = false
        ∧ ∃ ex ∈ [exGood], ∃ p : Problem, solveAllOk ex = SolveOutcome.success p
            ∧ renderCallFor wOut wImgs wExDir exGood ⟨false, []⟩
              = renderCallFor wOut wImgs wExDir ex p
            ∧ (renderCallFor wOut wImgs wExDir exGood ⟨false, []⟩).figFilename
              = (getFigFilename (ebaseOf ex wExDir) wImgs).2) :=
  ⟨by decide,
   renderCallConfiguration solveAllOk wOut wImgs wExDir [exGood]
     (renderCallFor wOut wImgs wExDir exGood ⟨false, []⟩) (by decide)⟩

/-! ### C10 -/

/-- C10: exclusion matching compares only the basename of a discovered
example against the `omits` entries: an example whose basename is listed is
skipped by the `generate_images` loop (no events, no renders) and by the
`generate_rst_files` grouping (the directory map is unchanged), whatever
subdirectory it lives in. -/
theorem omitsMatchOnBasename (solve : Str → SolveOutcome)
    (outputDir imagesDir examplesDir ex : Str) (rest : List Str)
    (m : List DirGroup) (h : basenameOf ex ∈ omits) :
    generateImages solve outputDir imagesDir examplesDir (ex :: rest)
        = generateImages solve outputDir imagesDir examplesDir rest
      ∧ dirMapFold examplesDir m (ex :: rest) = dirMapFold examplesDir m rest := by
  refine ⟨generateImages_cons_omit solve outputDir imagesDir examplesDir ex rest h, ?_⟩
  simp [dirMapFold, h]

/-- Witness for C10 at a listed basename sitting in a directory different
from the one the known-broken example lives in. -/
theorem omitsMatchOnBasename_witness :
    basenameOf exOmitDeep ∈ omits ∧
    (generateImages solveAllOk wOut wImgs wExDir (exOmitDeep :: [exGood])
        = generateImages solveAllOk wOut wImgs wExDir [exGood]
      ∧ dirMapFold wExDir [] (exOmitDeep :: [exGood])
        = dirMapFold wExDir [] [exGood]) :=
  ⟨by decide,
   omitsMatchOnBasename solveAllOk wOut wImgs wExDir exOmitDeep [exGood] [] (by decide)⟩

/-! ### C8 -/

/-- C8: with the no-images option the driver invokes neither the
solve/render stage nor the thumbnail stage, only documentation generation;
otherwise it runs image generation, then thumbnail generation, and
documentation generation always comes last; the images directory defaults
to `images` under the documentation root, the thumbnails directory is
`thumbnails` under the images directory, and the rst directory is
`examples` under the documentation root. -/
theorem driverStagePlan (realpath : Str → Str) (opts : CmdOptions) :
    (opts.noImages = true →
      mainStages realpath opts
        = [StageCall.rstFiles (rstDirOf realpath opts) (realpath opts.examplesDir)
            (imagesDirOf realpath opts)])
    ∧ (opts.noImages = false →
      mainStages realpath opts
        = [StageCall.images (imagesDirOf realpath opts) (realpath opts.examplesDir),
           StageCall.thumbnails (thumbnailsDirOf realpath opts) (imagesDirOf realpath opts),
           StageCall.rstFiles (rstDirOf realpath opts) (realpath opts.examplesDir)
             (imagesDirOf realpath opts)])
    ∧ (mainStages realpath opts).getLast?
        = some (StageCall.rstFiles (rstDirOf realpath opts) (realpath opts.examplesDir)
            (imagesDirOf realpath opts))
    ∧ (opts.imagesDirOpt = none →
      imagesDirOf realpath opts
        = osJoin (galleryDirOf realpath opts) ("images").toList)
    ∧ thumbnailsDirOf realpath opts
        = osJoin (imagesDirOf realpath opts) ("thumbnails").toList
    ∧ rstDirOf realpath opts = osJoin (galleryDirOf realpath opts) ("examples").toList := by
  refine ⟨fun h => ?_, fun h => ?_, ?_, fun h => ?_, rfl, rfl⟩
  · simp [mainStages, h]
  · simp [mainStages, h]
  · cases h : opts.noImages <;> simp [mainStages, h]
  · simp [imagesDirOf, getDefault, h]

/-- Default options with the no-images flag set, as parsed by the option
parser at lines 232-246. -/
def wOptsNoImages : CmdOptions :=
  ⟨("examples").toList, none, true, ("gallery/gallery.html").toList⟩

/-- Witness for C8 with the no-images option set. -/
theorem driverStagePlan_witness :
    wOptsNoImages.noImages = true ∧
      mainStages id wOptsNoImages
        = [StageCall.rstFiles (rstDirOf id wOptsNoImages) (id wOptsNoImages.examplesDir)
            (imagesDirOf id wOptsNoImages)] :=
  ⟨rfl, (driverStagePlan id wOptsNoImages).1 rfl⟩

/-! ### C6 -/

lemma applyWrites_agreeAt (ws : List WriteOp) (fs1 fs2 : Str → Option Str) (p : Str)
    (h : fs1 p = fs2 p) : applyWrites ws fs1 p = applyWrites ws fs2 p := by
  induction ws generalizing fs1 fs2 with
  | nil => exact h
  | cons w ws ih =>
    simp only [applyWrites, List.foldl_cons] at *
    exact ih (applyWrite fs1 w) (applyWrite fs2 w) (by simp [applyWrite, h])

lemma applyWrites_unwritten (ws : List WriteOp) (fs : Str → Option Str) (p : Str)
    (h : ∀ w ∈ ws, w.path ≠ p) : applyWrites ws fs p = fs p := by
  induction ws generalizing fs with
  | nil => rfl
  | cons w ws ih =>
    simp only [applyWrites, List.foldl_cons] at *
    have hw : w.path ≠ p := h w (List.mem_cons_self w ws)
    have := ih (applyWrite fs w) fun w2 h2 => h w2 (List.mem_cons_of_mem w h2)
    simp only [applyWrites] at this
    rw [this]
    have hpw : p ≠ w.path := fun hc => hw hc.symm
    simp [applyWrite, hpw]

lemma applyWrites_written (ws : List WriteOp) (fs1 fs2 : Str → Option Str) (p : Str)
    (h : ∃ w ∈ ws, w.path = p) : applyWrites ws fs1 p = applyWrites ws fs2 p := by
  induction ws generalizing fs1 fs2 with
  | nil => obtain ⟨w, hw, _⟩ := h; exact absurd hw (List.not_mem_nil w)
  | cons w ws ih =>
    simp only [applyWrites, List.foldl_cons] at *
    obtain ⟨w0, hw0, hp0⟩ := h
    rcases List.mem_cons.mp hw0 with rfl | hmem
    · exact applyWrites_agreeAt ws _ _ p (by simp [applyWrite, hp0.symm])
    · exact ih _ _ ⟨w0, hmem, hp0⟩

/-- C6: running `generate_rst_files` twice on an unchanged corpus is
idempotent: the write list is a pure function of the corpus alone (the
content found on disk at any path the run writes does not depend on the
prior filesystem state), and applying the run's writes twice yields the
same filesystem as applying them once. -/
theorem rstGenerationIdempotent (dataDir rstDir examplesDir imagesDir : Str)
    (files : List Str) (fs fs1 fs2 : Str → Option Str) (p : Str) :
    ((∃ w ∈ generateRstFiles dataDir rstDir examplesDir imagesDir files, w.path = p) →
      applyWrites (generateRstFiles dataDir rstDir examplesDir imagesDir files) fs1 p
        = applyWrites (generateRstFiles dataDir rstDir examplesDir imagesDir files) fs2 p)
    ∧ applyWrites (generateRstFiles dataDir rstDir examplesDir imagesDir files)
        (applyWrites (generateRstFiles dataDir rstDir examplesDir imagesDir files) fs)
      = applyWrites (generateRstFiles dataDir rstDir examplesDir imagesDir files) fs := by
  constructor
  · exact fun h =>
      applyWrites_written (generateRstFiles dataDir rstDir examplesDir imagesDir files)
        fs1 fs2 p h
  · funext q
    by_cases hq : ∃ w ∈ generateRstFiles dataDir rstDir examplesDir imagesDir files,
        w.path = q
    · exact applyWrites_written _ _ _ q hq
    · push_neg at hq
      rw [applyWrites_unwritten _ _ q hq, applyWrites_unwritten _ _ q hq]

/-- Witness for C6 at a concrete corpus, with the main index path as the
concretely written path and two unrelated initial filesystem states. -/
theorem rstGenerationIdempotent_witness :
    ((∃ w ∈ generateRstFiles wData wRst wExDir wImgs [exGood],
        w.path = osJoin wRst ("index.rst").toList) →
      applyWrites (generateRstFiles wData wRst wExDir wImgs [exGood]) (fun _ => none)
          (osJoin wRst ("index.rst").toList)
        = applyWrites (generateRstFiles wData wRst wExDir wImgs [exGood])
            (fun _ => some [])
            (osJoin wRst ("index.rst").toList))
    ∧ applyWrites (generateRstFiles wData wRst wExDir wImgs [exGood])
        (applyWrites (generateRstFiles wData wRst wExDir wImgs [exGood]) (fun _ => none))
      = applyWrites (generateRstFiles wData wRst wExDir wImgs [exGood]) (fun _ => none) :=
  rstGenerationIdempotent wData wRst wExDir wImgs [exGood]
    (fun _ => none) (fun _ => none) (fun _ => some [])
    (osJoin wRst ("index.rst").toList)

/-! ### C3 -/

lemma rfindIdx_neg_of_not_mem (s : Str) (c : Char) (h : c ∉ s) : rfindIdx s c = -1 := by
  induction s with
  | nil => rfl
  | cons a rest ih =>
    have hc : c ∉ rest := fun hm => h (List.mem_cons_of_mem a hm)
    have ha : ¬a = c := fun he => h (he ▸ List.mem_cons_self a rest)
    simp [rfindIdx, ih hc, ha]

lemma rfindIdx_append_cons (u t : Str) (c : Char) (h : c ∉ t) :
    rfindIdx (u ++ c :: t) c = (u.length : Int) := by
  induction u with
  | nil => simp [rfindIdx, rfindIdx_neg_of_not_mem t c h]
  | cons a u ih =>
    have h0 : (0 : Int) ≤ (u.length : Int) := Int.natCast_nonneg _
    have hstep : rfindIdx ((a :: u) ++ c :: t) c
        = if 0 ≤ rfindIdx (u ++ c :: t) c then rfindIdx (u ++ c :: t) c + 1
          else if a = c then 0 else -1 := rfl
    rw [hstep, ih, if_pos h0, List.length_cons]
    push_cast
    ring

lemma rfindIdx_append_not_mem (u t : Str) (c : Char) (h : c ∉ t) :
    rfindIdx (u ++ t) c = rfindIdx u c := by
  induction u with
  | nil => simpa [rfindIdx] using rfindIdx_neg_of_not_mem t c h
  | cons a u ih => simp [rfindIdx, ih]

lemma rfindIdx_lt_length (s : Str) (c : Char) : rfindIdx s c < (s.length : Int) := by
  induction s with
  | nil => norm_num [rfindIdx]
  | cons a rest ih =>
    simp only [rfindIdx, List.length_cons]
    push_cast
    split_ifs <;> omega

/-- For a path of the form `u ++ ".py"` whose basename has a non-dot
character somewhere before the final dot, CPython `splitext` strips exactly
the `".py"` extension. -/
lemma splitextRoot_strip_py (u : Str)
    (hscan : existsNonDot (u ++ (".py").toList)
        (rfindIdx (u ++ (".py").toList) pathSep + 1)
        (rfindIdx (u ++ (".py").toList) '.') = true) :
    splitextRoot (u ++ (".py").toList) = u := by
  have hdot : rfindIdx (u ++ (".py").toList) '.' = (u.length : Int) := by
    have hl : (".py").toList = '.' :: ('p' :: 'y' :: []) := rfl
    rw [hl]
    exact rfindIdx_append_cons u _ '.' (by decide)
  have hsep : rfindIdx (u ++ (".py").toList) pathSep = rfindIdx u pathSep :=
    rfindIdx_append_not_mem u _ pathSep (by decide)
  have hlt : rfindIdx (u ++ (".py").toList) pathSep
      < rfindIdx (u ++ (".py").toList) '.' := by
    rw [hsep, hdot]
    exact rfindIdx_lt_length u pathSep
  simp only [splitextRoot]
  rw [if_pos ⟨hlt, hscan⟩, hdot, Int.toNat_natCast, List.take_left]

lemma repSep_inj {a b : Char} (ha : a ≠ '-') (hb : b ≠ '-') (h : repSep a = repSep b) :
    a = b := by
  by_cases h1 : a = pathSep <;> by_cases h2 : b = pathSep
  · rw [h1, h2]
  · rw [repSep, repSep, if_pos h1, if_neg h2] at h
    exact absurd h.symm hb
  · rw [repSep, repSep, if_neg h1, if_pos h2] at h
    exact absurd h ha
  · rwa [repSep, repSep, if_neg h1, if_neg h2] at h

lemma map_repSep_inj : ∀ xs ys : Str, '-' ∉ xs → '-' ∉ ys →
    xs.map repSep = ys.map repSep → xs = ys := by
  intro xs
  induction xs with
  | nil =>
    intro ys _ _ h
    cases ys with
    | nil => rfl
    | cons b bs => simp at h
  | cons a as ih =>
    intro ys hx hy h
    cases ys with
    | nil => simp at h
    | cons b bs =>
      simp only [List.map_cons, List.cons.injEq] at h
      have ha : a ≠ '-' := fun he => hx (he ▸ List.mem_cons_self a as)
      have hb : b ≠ '-' := fun he => hy (he ▸ List.mem_cons_self b bs)
      have has : '-' ∉ as := fun hm => hx (List.mem_cons_of_mem a hm)
      have hbs : '-' ∉ bs := fun hm => hy (List.mem_cons_of_mem b hm)
      exact List.cons_eq_cons.mpr ⟨repSep_inj ha hb h.1, ih bs has hbs h.2⟩

lemma repSep_ne_sep (c : Char) : repSep c ≠ pathSep := by
  by_cases h : c = pathSep
  · rw [repSep, if_pos h]
    decide
  · rw [repSep, if_neg h]
    exact h

/-- C3 counterexample: the distinct example relative paths `a/b.py` and
`a-b.py` flatten to the same image filename, so the derivation is not
injective on arbitrary corpora of distinct paths. -/
theorem figFilenameCollisionCex :
    ("a/b.py").toList ≠ ("a-b.py").toList
      ∧ getFigFilename (("a/b.py").toList) (("imgs").toList)
        = getFigFilename (("a-b.py").toList) (("imgs").toList) := by
  constructor
  · decide
  · decide

/-- C3 (amended): the image-path derivation is a pure function of
`(ebase, images_dir)` that strips the extension, maps every separator to
`'-'`, appends `.png` and joins under `images_dir`; the filename component
contains no separator; and it is injective on corpora of distinct `.py`
paths that contain no `'-'` character and whose basename has a non-dot
character before the extension (without those provisos injectivity fails,
see the counterexample). -/
theorem figFilenameDerivation (d p q : Str)
    (hp : ∃ u, p = u ++ (".py").toList) (hq : ∃ v, q = v ++ (".py").toList)
    (hpscan : existsNonDot p (rfindIdx p pathSep + 1) (rfindIdx p '.') = true)
    (hqscan : existsNonDot q (rfindIdx q pathSep + 1) (rfindIdx q '.') = true)
    (hpd : '-' ∉ p) (hqd : '-' ∉ q) :
    getFigFilename p d
        = ((splitextRoot p).map repSep,
           osJoin d ((splitextRoot p).map repSep ++ (".png").toList))
      ∧ (∀ c ∈ (getFigFilename p d).1 ++ (".png").toList, c ≠ pathSep)
      ∧ (getFigFilename p d = getFigFilename q d → p = q) := by
  refine ⟨rfl, ?_, ?_⟩
  · intro c hc
    rcases List.mem_append.mp hc with hc1 | hc2
    · obtain ⟨x, _, hx⟩ := List.mem_map.mp hc1
      rw [← hx]
      exact repSep_ne_sep x
    · have hl : (".png").toList = '.' :: 'p' :: 'n' :: 'g' :: [] := rfl
      rw [hl] at hc2
      simp only [List.mem_cons, List.not_mem_nil, or_false] at hc2
      rcases hc2 with rfl | rfl | rfl | rfl <;> decide
  · intro heq
    obtain ⟨u, rfl⟩ := hp
    obtain ⟨v, rfl⟩ := hq
    have h1 : (getFigFilename (u ++ (".py").toList) d).1
        = (getFigFilename (v ++ (".py").toList) d).1 := by rw [heq]
    simp only [getFigFilename, getFigBase] at h1
    rw [splitextRoot_strip_py u hpscan, splitextRoot_strip_py v hqscan] at h1
    have hud : '-' ∉ u := fun hm => hpd (List.mem_append_left _ hm)
    have hvd : '-' ∉ v := fun hm => hqd (List.mem_append_left _ hm)
    rw [map_repSep_inj u v hud hvd h1]

/-- Witness for C3 (amended) at two concrete well-formed paths. -/
theorem figFilenameDerivation_witness :
    (∃ u, ("x/a.py").toList = u ++ (".py").toList)
      ∧ (getFigFilename (("x/a.py").toList) (("imgs").toList)
          = getFigFilename (("y/b.py").toList) (("imgs").toList)
        → ("x/a.py").toList = ("y/b.py").toList) :=
  ⟨⟨("x/a").toList, rfl⟩,
   (figFilenameDerivation (("imgs").toList) (("x/a.py").toList) (("y/b.py").toList)
      ⟨("x/a").toList, rfl⟩ ⟨("y/b").toList, rfl⟩
      (by decide) (by decide) (by decide) (by decide)).2.2⟩

/-! ### C4 -/

/-- Association-list lookup on the directory map. -/
def findGroup : List DirGroup → Str → Option (List (Str × Str))
  | [], _ => none
  | (k0, vs) :: rest, k => if k0 = k then some vs else findGroup rest k

/-- Members of directory `k` of the corpus, in discovery order, with their
page names. -/
def groupMembersOf (examplesDir : Str) (files : List Str) (k : Str) : List (Str × Str) :=
  (files.filter fun ex =>
      decide (basenameOf ex ∉ omits) && decide (dirKeyOf examplesDir ex = k)).map
    fun ex => (ex, rstFilenameOf ex)

/-- Top-level index entries: the directory names, in `ordered_iteritems`
order, referenced by the `'    %s/index'` lines (lines 179, 210). -/
def topIndexEntries (examplesDir : Str) (files : List Str) : List Str :=
  (orderedItems (dirMapOf examplesDir files)).map Prod.fst

lemma addToDirMap_cons_same (k0 : Str) (vs : List (Str × Str)) (rest : List DirGroup)
    (k : Str) (v : Str × Str) (h : k0 = k) :
    addToDirMap ((k0, vs) :: rest) k v = (k0, vs ++ [v]) :: rest := by
  simp [addToDirMap, h]

lemma addToDirMap_cons_other (k0 : Str) (vs : List (Str × Str)) (rest : List DirGroup)
    (k : Str) (v : Str × Str) (h : k0 ≠ k) :
    addToDirMap ((k0, vs) :: rest) k v = (k0, vs) :: addToDirMap rest k v := by
  simp [addToDirMap, h]

lemma addToDirMap_keys_mem (m : List DirGroup) (k : Str) (v : Str × Str) (q : Str) :
    q ∈ (addToDirMap m k v).map Prod.fst ↔ q ∈ m.map Prod.fst ∨ q = k := by
  induction m with
  | nil => simp [addToDirMap]
  | cons g rest ih =>
    obtain ⟨k0, vs⟩ := g
    by_cases h : k0 = k
    · rw [addToDirMap_cons_same k0 vs rest k v h]
      subst h
      simp only [List.map_cons, List.mem_cons]
      tauto
    · rw [addToDirMap_cons_other k0 vs rest k v h]
      simp only [List.map_cons, List.mem_cons, ih]
      tauto

lemma addToDirMap_keys_nodup (m : List DirGroup) (k : Str) (v : Str × Str)
    (h : (m.map Prod.fst).Nodup) : ((addToDirMap m k v).map Prod.fst).Nodup := by
  induction m with
  | nil => simp [addToDirMap]
  | cons g rest ih =>
    obtain ⟨k0, vs⟩ := g
    simp only [List.map_cons, List.nodup_cons] at h
    by_cases hk : k0 = k
    · rw [addToDirMap_cons_same k0 vs rest k v hk]
      simp only [List.map_cons, List.nodup_cons]
      exact ⟨h.1, h.2⟩
    · rw [addToDirMap_cons_other k0 vs rest k v hk]
      simp only [List.map_cons, List.nodup_cons]
      refine ⟨?_, ih h.2⟩
      rw [addToDirMap_keys_mem]
      rintro (hmem | rfl)
      · exact h.1 hmem
      · exact hk rfl

lemma findGroup_addSame (m : List DirGroup) (k : Str) (v : Str × Str) :
    findGroup (addToDirMap m k v) k = some ((findGroup m k).getD [] ++ [v]) := by
  induction m with
  | nil => simp [addToDirMap, findGroup]
  | cons g rest ih =>
    obtain ⟨k0, vs⟩ := g
    by_cases h : k0 = k
    · subst h
      simp [addToDirMap, findGroup]
    · simp [addToDirMap, findGroup, h, ih]

lemma findGroup_addOther (m : List DirGroup) (k : Str) (v : Str × Str) (q : Str)
    (hq : q ≠ k) : findGroup (addToDirMap m k v) q = findGroup m q := by
  induction m with
  | nil => simp [addToDirMap, findGroup, Ne.symm hq]
  | cons g rest ih =>
    obtain ⟨k0, vs⟩ := g
    by_cases h : k0 = k
    · subst h
      simp [addToDirMap, findGroup, Ne.symm hq]
    · simp [addToDirMap, findGroup, h, ih]

lemma dirMapFold_cons_omit (examplesDir : Str) (m : List DirGroup) (ex : Str)
    (rest : List Str) (h : basenameOf ex ∈ omits) :
    dirMapFold examplesDir m (ex :: rest) = dirMapFold examplesDir m rest := by
  simp [dirMapFold, h]

lemma dirMapFold_cons_keep (examplesDir : Str) (m : List DirGroup) (ex : Str)
    (rest : List Str) (h : basenameOf ex ∉ omits) :
    dirMapFold examplesDir m (ex :: rest)
      = dirMapFold examplesDir
          (addToDirMap m (dirKeyOf examplesDir ex) (ex, rstFilenameOf ex)) rest := by
  simp [dirMapFold, h]

lemma groupMembersOf_cons_omit (examplesDir : Str) (ex : Str) (rest : List Str) (k : Str)
    (h : basenameOf ex ∈ omits) :
    groupMembersOf examplesDir (ex :: rest) k = groupMembersOf examplesDir rest k := by
  simp [groupMembersOf, List.filter_cons, h]

lemma groupMembersOf_cons_same (examplesDir : Str) (ex : Str) (rest : List Str) (k : Str)
    (h : basenameOf ex ∉ omits) (hk : dirKeyOf examplesDir ex = k) :
    groupMembersOf examplesDir (ex :: rest) k
      = (ex, rstFilenameOf ex) :: groupMembersOf examplesDir rest k := by
  simp [groupMembersOf, List.filter_cons, h, hk]

lemma groupMembersOf_cons_other (examplesDir : Str) (ex : Str) (rest : List Str) (k : Str)
    (hk : dirKeyOf examplesDir ex ≠ k) :
    groupMembersOf examplesDir (ex :: rest) k = groupMembersOf examplesDir rest k := by
  simp [groupMembersOf, List.filter_cons, hk]

lemma dirMapFold_lookup (examplesDir : Str) (files : List Str) (m : List DirGroup)
    (k : Str) :
    (findGroup (dirMapFold examplesDir m files) k).getD []
      = (findGroup m k).getD [] ++ groupMembersOf examplesDir files k := by
  induction files generalizing m with
  | nil => simp [dirMapFold, groupMembersOf]
  | cons ex rest ih =>
    by_cases hom : basenameOf ex ∈ omits
    · rw [dirMapFold_cons_omit examplesDir m ex rest hom, ih,
        groupMembersOf_cons_omit examplesDir ex rest k hom]
    · rw [dirMapFold_cons_keep examplesDir m ex rest hom, ih]
      by_cases hk : dirKeyOf examplesDir ex = k
      · rw [groupMembersOf_cons_same examplesDir ex rest k hom hk, hk,
          findGroup_addSame m k (ex, rstFilenameOf ex)]
        simp [List.append_assoc]
      · rw [groupMembersOf_cons_other examplesDir ex rest k hk,
          findGroup_addOther m (dirKeyOf examplesDir ex) (ex, rstFilenameOf ex) k
            (fun hc => hk hc.symm)]

lemma dirMapFold_keys_mem (examplesDir : Str) (files : List Str) (m : List DirGroup)
    (q : Str) :
    q ∈ (dirMapFold examplesDir m files).map Prod.fst
      ↔ q ∈ m.map Prod.fst
        ∨ ∃ ex ∈ files, basenameOf ex ∉ omits ∧ dirKeyOf examplesDir ex = q := by
  induction files generalizing m with
  | nil => simp [dirMapFold]
  | cons ex rest ih =>
    by_cases hom : basenameOf ex ∈ omits
    · rw [dirMapFold_cons_omit examplesDir m ex rest hom, ih,
        List.exists_mem_cons_iff]
      simp only [hom]
      tauto
    · rw [dirMapFold_cons_keep examplesDir m ex rest hom, ih, addToDirMap_keys_mem,
        List.exists_mem_cons_iff]
      constructor
      · rintro ((hm | rfl) | hex)
        · exact Or.inl hm
        · exact Or.inr (Or.inl ⟨hom, rfl⟩)
        · exact Or.inr (Or.inr hex)
      · rintro (hm | ⟨_, rfl⟩ | hex)
        · exact Or.inl (Or.inl hm)
        · exact Or.inl (Or.inr rfl)
        · exact Or.inr hex

lemma dirMapFold_keys_nodup (examplesDir : Str) (files : List Str) (m : List DirGroup)
    (h : (m.map Prod.fst).Nodup) :
    ((dirMapFold examplesDir m files).map Prod.fst).Nodup := by
  induction files generalizing m with
  | nil => exact h
  | cons ex rest ih =>
    by_cases hom : basenameOf ex ∈ omits
    · rw [dirMapFold_cons_omit examplesDir m ex rest hom]
      exact ih m h
    · rw [dirMapFold_cons_keep examplesDir m ex rest hom]
      exact ih _ (addToDirMap_keys_nodup m _ _ h)

lemma findGroup_of_mem (m : List DirGroup) (h : (m.map Prod.fst).Nodup)
    (k : Str) (vs : List (Str × Str)) (hm : (k, vs) ∈ m) : findGroup m k = some vs := by
  induction m with
  | nil => cases hm
  | cons g rest ih =>
    obtain ⟨k0, vs0⟩ := g
    simp only [List.map_cons, List.nodup_cons] at h
    rcases List.mem_cons.mp hm with heq | hmem
    · obtain ⟨h1, h2⟩ := Prod.mk.injEq .. ▸ heq
      subst h1
      subst h2
      simp [findGroup]
    · have hk : k0 ≠ k := by
        intro hc
        subst hc
        exact h.1 (List.mem_map_of_mem Prod.fst hmem)
      simp [findGroup, hk, ih h.2 hmem]

/-- C4 counterexample.  First, with the nested corpus `a/b/c.py` the
top-level index lists the full relative directory `a/b`, not the immediate
subdirectory `a`.  Second, with the corpus `d/a.py.py` the subdirectory
index entry is `a` (all `.py` occurrences replaced by `.rst`, then all
`.rst` occurrences removed), while the content page is written as
`a.rst.rst`, whose name without the page extension is `a.rst` — the listed
entry is not the page name without its extension. -/
theorem indexEntryVsPageNameCex :
    topIndexEntries wExDir [("/sf/examples/a/b/c.py").toList] = [("a/b").toList]
      ∧ ("a/b").toList ≠ ("a").toList
      ∧ (generateRstFiles wData wRst wExDir wImgs
          [("/sf/examples/d/a.py.py").toList]).map WriteOp.path
        = [("/sf/doc/examples/d/a.rst.rst").toList,
           ("/sf/doc/examples/d/index.rst").toList,
           ("/sf/doc/examples/index.rst").toList]
      ∧ rstFilenameOf (("/sf/examples/d/a.py.py").toList) = ("a.rst.rst").toList
      ∧ rstFilenameNs (("a.rst.rst").toList) = ("a").toList
      ∧ splitextRoot (("a.rst.rst").toList) = ("a.rst").toList
      ∧ ("a").toList ≠ ("a.rst").toList := by
  refine ⟨by decide, by decide, by decide, by decide, by decide, by decide, by decide⟩

/-- C4 (amended): the top-level index lists exactly the distinct grouping
keys — the examples' containing directories as relative paths (possibly
nested), not necessarily immediate subdirectories — of non-excluded
examples, each exactly once, in sorted key order; each subdirectory index
lists, for its members in discovery order, the basename with `.py`
occurrences replaced by `.rst` and `.rst` occurrences then removed (which
matches the content-page name without extension only for ordinary names,
see the counterexample). -/
theorem indexPagesStructure (examplesDir : Str) (files : List Str) :
    (topIndexEntries examplesDir files).Nodup
      ∧ (∀ k, k ∈ topIndexEntries examplesDir files
          ↔ ∃ ex ∈ files, basenameOf ex ∉ omits ∧ dirKeyOf examplesDir ex = k)
      ∧ List.Sorted (· ≤ ·) (topIndexEntries examplesDir files)
      ∧ mainIndexContent examplesDir files
        = indexTemplate ("sfepy").toList ("SfePy autogenerated gallery").toList
            (List.replicate 27 '=')
          ++ ((topIndexEntries examplesDir files).map fun d =>
              ("    ").toList ++ d ++ ("/index\n").toList).flatten
      ∧ ∀ g ∈ orderedItems (dirMapOf examplesDir files),
          g.2 = groupMembersOf examplesDir files g.1
            ∧ subdirIndexContent g
              = indexTemplate g.1 g.1 (List.replicate g.1.length '=')
                ++ ((groupMembersOf examplesDir files g.1).map fun p =>
                    ("    ").toList ++ rstFilenameNs p.2 ++ ("\n").toList).flatten := by
  have hperm : (orderedItems (dirMapOf examplesDir files)).Perm
      (dirMapOf examplesDir files) :=
    List.perm_insertionSort dirGroupLe (dirMapOf examplesDir files)
  have hnodup : ((dirMapOf examplesDir files).map Prod.fst).Nodup :=
    dirMapFold_keys_nodup examplesDir files [] (by simp)
  refine ⟨?_, ?_, ?_, ?_, ?_⟩
  · exact ((hperm.map Prod.fst).nodup_iff).mpr hnodup
  · intro k
    rw [topIndexEntries, (hperm.map Prod.fst).mem_iff]
    have := dirMapFold_keys_mem examplesDir files [] k
    simpa [dirMapOf] using this
  · exact List.Pairwise.map Prod.fst (fun a b h => h)
      (List.sorted_insertionSort dirGroupLe (dirMapOf examplesDir files))
  · simp [mainIndexContent, topIndexEntries, List.map_map, Function.comp_def]
  · intro g hg
    have hmem : g ∈ dirMapOf examplesDir files := (hperm.mem_iff).mp hg
    have hfg : findGroup (dirMapOf examplesDir files) g.1 = some g.2 :=
      findGroup_of_mem (dirMapOf examplesDir files) hnodup g.1 g.2
        (Prod.mk.eta ▸ hmem)
    have hlook := dirMapFold_lookup examplesDir files [] g.1
    rw [show dirMapFold examplesDir [] files = dirMapOf examplesDir files from rfl,
      hfg] at hlook
    simp only [findGroup, Option.getD_some, Option.getD_none, List.nil_append] at hlook
    refine ⟨hlook, ?_⟩
    rw [subdirIndexContent, ← hlook]

/-- Witness group for C4. -/
def wGroup : DirGroup := (("a").toList, [(exGood, ("ex1.rst").toList)])

/-- Witness for C4 (amended) at a concrete one-example corpus. -/
theorem indexPagesStructure_witness :
    wGroup ∈ orderedItems (dirMapOf wExDir [exGood])
      ∧ (wGroup.2 = groupMembersOf wExDir [exGood] wGroup.1
        ∧ subdirIndexContent wGroup
          = indexTemplate wGroup.1 wGroup.1 (List.replicate wGroup.1.length '=')
            ++ ((groupMembersOf wExDir [exGood] wGroup.1).map fun p =>
                ("    ").toList ++ rstFilenameNs p.2 ++ ("\n").toList).flatten) :=
  ⟨by decide, (indexPagesStructure wExDir [exGood]).2.2.2.2 wGroup (by decide)⟩

end GenGallery
